import Mathlib

/-!
Shallow embedding of `lib/pixel-mapper.cc` (rgb-led-matrix pixel mappers).

The C++ code works on `int` values; we model them as `Int` with C semantics
for `/` and `%` (truncation towards zero), i.e. `Int.tdiv` / `Int.tmod`.
Pointer-out-parameter pairs `(*matrix_x, *matrix_y)` become returned pairs;
a `switch` that can fall through without assigning its out-parameters is
modelled with `Option` (`none` = outputs left unassigned).  `const char *`
parameters that may be `NULL` become `Option String`.
-/

/-- Integer division with C semantics (truncation towards zero). -/
def cdiv (a b : Int) : Int := Int.tdiv a b

/-- Integer remainder with C semantics (sign follows the dividend). -/
def cmod (a b : Int) : Int := Int.tmod a b

lemma cdiv_add_cmod (a b : Int) : b * cdiv a b + cmod a b = a :=
  Int.tdiv_add_tmod a b

lemma cmod_nonneg {a : Int} (b : Int) (ha : 0 ≤ a) : 0 ≤ cmod a b :=
  Int.tmod_nonneg b ha

lemma cmod_lt_of_pos (a : Int) {b : Int} (hb : 0 < b) : cmod a b < b :=
  Int.tmod_lt_of_pos a hb

lemma cdiv_nonneg {a b : Int} (ha : 0 ≤ a) (hb : 0 ≤ b) : 0 ≤ cdiv a b :=
  Int.tdiv_nonneg ha hb

lemma cdiv_lt_of_lt_mul {a b n : Int} (ha : 0 ≤ a) (hb : 0 < b)
    (h : a < n * b) : cdiv a b < n := by
  have h1 := cdiv_add_cmod a b
  have h2 := cmod_nonneg (a := a) b ha
  have h3 : b * cdiv a b < b * n := by nlinarith
  exact lt_of_mul_lt_mul_left h3 hb.le

lemma mul_cdiv_le {a b : Int} (ha : 0 ≤ a) (_hb : 0 < b) :
    b * cdiv a b ≤ a := by
  have h1 := cdiv_add_cmod a b
  have h2 := cmod_nonneg (a := a) b ha
  linarith

lemma cdiv_exact {a b : Int} (hb : b ≠ 0) (h : b ∣ a) :
    b * cdiv a b = a := by
  obtain ⟨k, rfl⟩ := h
  rw [cdiv, Int.mul_tdiv_cancel_left _ hb]

lemma cmod_eq_zero_iff_dvd {a b : Int} : cmod a b = 0 ↔ b ∣ a := by
  constructor
  · intro h
    have h1 := cdiv_add_cmod a b
    rw [h, add_zero] at h1
    exact ⟨cdiv a b, h1.symm⟩
  · rintro ⟨k, rfl⟩
    rcases eq_or_ne b 0 with hb | hb
    · subst hb; simp [cmod]
    · have : cdiv (b * k) b = k := Int.mul_tdiv_cancel_left _ hb
      have h1 := cdiv_add_cmod (b * k) b
      rw [this] at h1
      linarith

/-- Values `q * b + r` with `0 ≤ q < n` and `0 ≤ r < b` lie in `[0, n*b)`. -/
lemma block_bounds {b q r n : Int} (hb : 0 < b) (hq0 : 0 ≤ q) (hqn : q < n)
    (hr0 : 0 ≤ r) (hrb : r < b) : 0 ≤ q * b + r ∧ q * b + r < n * b := by
  refine ⟨add_nonneg (mul_nonneg hq0 hb.le) hr0, ?_⟩
  have hstep : (q + 1) * b ≤ n * b :=
    mul_le_mul_of_nonneg_right (by linarith) hb.le
  have hexp : (q + 1) * b = q * b + b := by ring
  linarith

/-- Base-b block decomposition is injective: quotient and remainder are
determined by `q * b + r` when `0 ≤ r < b`. -/
lemma block_inj {b q1 r1 q2 r2 : Int} (hb : 0 < b)
    (h10 : 0 ≤ r1) (h1b : r1 < b) (h20 : 0 ≤ r2) (h2b : r2 < b)
    (h : q1 * b + r1 = q2 * b + r2) : q1 = q2 ∧ r1 = r2 := by
  have hq : q1 = q2 := by
    by_contra hne
    rcases lt_or_gt_of_ne hne with hlt | hgt
    · have hle : q1 + 1 ≤ q2 := hlt
      have hm : (q1 + 1) * b ≤ q2 * b :=
        mul_le_mul_of_nonneg_right hle hb.le
      have hexp : (q1 + 1) * b = q1 * b + b := by ring
      linarith
    · have hle : q2 + 1 ≤ q1 := hgt
      have hm : (q2 + 1) * b ≤ q1 * b :=
        mul_le_mul_of_nonneg_right hle hb.le
      have hexp : (q2 + 1) * b = q2 * b + b := by ring
      linarith
  refine ⟨hq, ?_⟩
  rw [hq] at h
  linarith

/-- Coordinate `(x, y)` lies in the rectangle `[0, w) x [0, h)`. -/
def InRange (w h x y : Int) : Prop := 0 ≤ x ∧ x < w ∧ 0 ≤ y ∧ y < h

instance (w h x y : Int) : Decidable (InRange w h x y) := by
  unfold InRange; infer_instance

/-!
## RotatePixelMapper
-/

/-- Character predicate matching the whitespace characters `strtol` skips
(the `isspace` set in the C locale). -/
def isSpaceC (c : Char) : Bool :=
  c = ' ' || c = Char.ofNat 9 || c = Char.ofNat 10 || c = Char.ofNat 11 ||
  c = Char.ofNat 12 || c = Char.ofNat 13

/-- Numeric value of a decimal digit character. -/
def digitVal (c : Char) : Int := (c.toNat : Int) - 48

/-- Value of a nonempty decimal digit string, most significant digit first. -/
def digitsToInt (ds : List Char) : Int :=
  ds.foldl (fun a c => a * 10 + digitVal c) 0

/-- Model of `strtol(s, &errpos, 10)`: skip whitespace, optional sign,
then decimal digits.  Returns the parsed value and the suffix starting at
`errpos`; when no digits could be converted, `errpos` is the original
string (so the returned suffix is the whole input). -/
def strtol10 (s : List Char) : Int × List Char :=
  let t := s.dropWhile isSpaceC
  match t with
  | '-' :: r =>
    let ds := r.takeWhile Char.isDigit
    if ds.isEmpty then (0, s)
    else (- digitsToInt ds, r.dropWhile Char.isDigit)
  | '+' :: r =>
    let ds := r.takeWhile Char.isDigit
    if ds.isEmpty then (0, s)
    else (digitsToInt ds, r.dropWhile Char.isDigit)
  | r =>
    let ds := r.takeWhile Char.isDigit
    if ds.isEmpty then (0, s)
    else (digitsToInt ds, r.dropWhile Char.isDigit)

/-- Embedding of `RotatePixelMapper::SetParameters`: returns the new value of
the `angle_` field, or `none` when the call returns `false`.  The stored
angle is `(angle + 360) % 360` with C `%` (truncation), exactly as in the
source. -/
def rotateSetParameters (param : Option String) : Option Int :=
  match param with
  | none => some 0
  | some s =>
    if s.length = 0 then some 0
    else
      let p := strtol10 s.toList
      if p.2 ≠ [] then none
      else if cmod p.1 90 ≠ 0 then none
      else some (cmod (p.1 + 360) 360)

/-- Embedding of `RotatePixelMapper::GetSizeMapping`. -/
def rotateGetSizeMapping (angle mw mh : Int) : (Int × Int) × Bool :=
  (if cmod angle 180 = 0 then (mw, mh) else (mh, mw), true)

/-- Embedding of `RotatePixelMapper::MapVisibleToMatrix`.  The C `switch`
has cases only for 0/90/180/270 and no default, so any other stored angle
leaves `*matrix_x, *matrix_y` unassigned; that fall-through is modelled as
`none`. -/
def rotateMapVisibleToMatrix (angle mw mh x y : Int) : Option (Int × Int) :=
  if angle = 0 then some (x, y)
  else if angle = 90 then some (mw - y - 1, x)
  else if angle = 180 then some (mw - x - 1, mh - y - 1)
  else if angle = 270 then some (y, mh - x - 1)
  else none

/-!
## MirrorPixelMapper
-/

/-- Embedding of `MirrorPixelMapper::SetParameters`: returns the new value
of the `horizontal_` field, or `none` when the call returns `false`.  Note
the source only prints a warning when `strlen(param) != 1`; it then switches
on the first character regardless. -/
def mirrorSetParameters (param : Option String) : Option Bool :=
  match param with
  | none => some true
  | some s =>
    if s.length = 0 then some true
    else
      match s.toList with
      | [] => some true
      | c :: _ =>
        if c = 'V' || c = 'v' then some false
        else if c = 'H' || c = 'h' then some true
        else none

/-- Embedding of `MirrorPixelMapper::GetSizeMapping`. -/
def mirrorGetSizeMapping (mw mh : Int) : (Int × Int) × Bool :=
  ((mw, mh), true)

/-- Embedding of `MirrorPixelMapper::MapVisibleToMatrix`. -/
def mirrorMapVisibleToMatrix (horizontal : Bool) (mw mh x y : Int) :
    Int × Int :=
  if horizontal then (mw - 1 - x, y) else (x, mh - 1 - y)

/-!
## UArrangementMapper
-/

/-- Embedding of `UArrangementMapper::SetParameters`: returns the new value
of the `parallel_` field, or `none` when the call returns `false`. -/
def uSetParameters (chain parallel : Int) : Option Int :=
  if chain < 2 then none
  else if cmod chain 2 ≠ 0 then none
  else some parallel

/-- Embedding of `UArrangementMapper::GetSizeMapping`.  The source first
writes both visible dimensions and then returns `false` when
`matrix_height % parallel_ != 0`. -/
def uGetSizeMapping (parallel mw mh : Int) : (Int × Int) × Bool :=
  ((cdiv mw 64 * 32, 2 * mh), cmod mh parallel = 0)

/-- Embedding of `UArrangementMapper::MapVisibleToMatrix`. -/
def uMapVisibleToMatrix (parallel mw mh x y : Int) : Int × Int :=
  let panel_height := cdiv mh parallel
  let visible_width := cdiv mw 64 * 32
  let slab_height := 2 * panel_height
  let base_y := cdiv y slab_height * panel_height
  let ym := cmod y slab_height
  if ym < panel_height then (x + cdiv mw 2, base_y + ym)
  else (visible_width - x - 1, base_y + (slab_height - ym - 1))

/-!
## VerticalMapper
-/

/-- Model of C `tolower` on the ASCII characters the code deals with. -/
def ctolower (c : Char) : Char :=
  if 'A' ≤ c ∧ c ≤ 'Z' then Char.ofNat (c.toNat + 32) else c

/-- Model of `strcasecmp(a, b) == 0`: case-insensitive string equality. -/
def strcasecmpEq (a b : String) : Bool :=
  a.toList.map ctolower == b.toList.map ctolower

/-- State of a configured `VerticalMapper` (fields `z_`, `chain_`,
`parallel_`). -/
structure VerticalState where
  z : Bool
  chain : Int
  parallel : Int
deriving DecidableEq, Repr

/-- Embedding of `VerticalMapper::SetParameters`: stores chain/parallel and
the serpentine flag `z_ = (param && strcasecmp(param, "Z") == 0)`; always
returns `true` (second component). -/
def vSetParameters (chain parallel : Int) (param : Option String) :
    VerticalState × Bool :=
  ({ z := match param with
          | none => false
          | some s => strcasecmpEq s "Z",
     chain := chain, parallel := parallel }, true)

/-- Embedding of `VerticalMapper::GetSizeMapping`. -/
def vGetSizeMapping (st : VerticalState) (mw mh : Int) : (Int × Int) × Bool :=
  ((cdiv (mw * st.parallel) st.chain, cdiv (mh * st.chain) st.parallel), true)

/-- Embedding of `VerticalMapper::MapVisibleToMatrix`.  The C local
`bool is_height_even_panels = (matrix_width / panel_width) % 2;` converts a
nonzero remainder to `true`, and the flip condition compares that bool
(promoted back to 0/1) with `(y / panel_height) % 2`. -/
def vMapVisibleToMatrix (st : VerticalState) (mw mh x y : Int) : Int × Int :=
  let panel_width := cdiv mw st.chain
  let panel_height := cdiv mh st.parallel
  let is_height_even_panels : Bool := cmod (cdiv mw panel_width) 2 ≠ 0
  let x_panel_start := cdiv y panel_height * panel_width
  let y_panel_start := cdiv x panel_width * panel_height
  let x_within_panel := cmod x panel_width
  let y_within_panel := cmod y panel_height
  let needs_flipping : Bool :=
    st.z &&
      ((if is_height_even_panels then (1 : Int) else 0) -
        cmod (cdiv y panel_height) 2 = 0)
  (x_panel_start + (if needs_flipping
                    then panel_width - 1 - x_within_panel
                    else x_within_panel),
   y_panel_start + (if needs_flipping
                    then panel_height - 1 - y_within_panel
                    else y_within_panel))

/-!
## WindmillPixelMapper
-/

/-- State of a configured `WindmillPixelMapper` (fields `z_`, `swap_lr_`,
`chain_`, `parallel_`). -/
structure WindmillState where
  z : Bool
  swap_lr : Bool
  chain : Int
  parallel : Int
deriving DecidableEq, Repr

/-- Parameter-scanning loop of `WindmillPixelMapper::SetParameters`:
separators are skipped, `Z`/`z` and `S`/`s` set the two flags, any other
character aborts with failure. -/
def windmillParseFlags : List Char → Bool → Bool → Option (Bool × Bool)
  | [], z, s => some (z, s)
  | c :: rest, z, s =>
    if c = ':' || c = ',' || c = ';' || c = ' ' then
      windmillParseFlags rest z s
    else if c = 'Z' || c = 'z' then windmillParseFlags rest true s
    else if c = 'S' || c = 's' then windmillParseFlags rest z true
    else none

/-- Embedding of `WindmillPixelMapper::SetParameters`: returns the
configured state, or `none` when the call returns `false`. -/
def windmillSetParameters (chain parallel : Int) (param : Option String) :
    Option WindmillState :=
  if parallel ≠ 2 then none
  else
    match param with
    | none => some ⟨false, false, chain, parallel⟩
    | some s =>
      match windmillParseFlags s.toList false false with
      | none => none
      | some zs => some ⟨zs.1, zs.2, chain, parallel⟩

/-- Embedding of `WindmillPixelMapper::GetSizeMapping`. -/
def windmillGetSizeMapping (st : WindmillState) (mw mh : Int) :
    (Int × Int) × Bool :=
  ((cdiv mh st.parallel * st.chain * st.parallel, cdiv mw st.chain), true)

/-- Embedding of `WindmillPixelMapper::MapVisibleToMatrix`, including the
final left-half 180-degree correction that overwrites the composed
coordinates. -/
def windmillMapVisibleToMatrix (st : WindmillState) (mw mh x y : Int) :
    Int × Int :=
  let panel_width := cdiv mw st.chain
  let panel_height := cdiv mh st.parallel
  let panel_index_along_width := cdiv x panel_height
  let rx := cmod x panel_height
  let ry := y
  let half := st.chain
  let is_left_half := panel_index_along_width < half
  let idx_in_half := if is_left_half then half - 1 - panel_index_along_width
                     else panel_index_along_width - half
  let p_left : Int := if st.swap_lr then 1 else 0
  let p_right : Int := if st.swap_lr then 0 else 1
  let p := if is_left_half then p_left else p_right
  let cpos := if is_left_half then panel_index_along_width
              else st.chain - 1 - idx_in_half
  let ux0 := ry
  let uy0 := panel_height - 1 - rx
  let uy1 := if is_left_half then panel_height - 1 - uy0 else uy0
  let zflip := st.z && cmod cpos 2 = 1
  let ux := if zflip then panel_width - 1 - ux0 else ux0
  let uy := if zflip then panel_height - 1 - uy1 else uy1
  if is_left_half then
    ((cpos + 1) * panel_width - 1 - ux, (p + 1) * panel_height - 1 - uy)
  else (cpos * panel_width + ux, p * panel_height + uy)

/-!
## Registry and lookup facade
-/

/-- Abstract view of a `PixelMapper` as the registry sees it: a display name
and the `SetParameters` entry point (modelled as a pure success predicate,
since only the boolean result steers `FindPixelMapper`). -/
structure PixelMapper where
  name : String
  setParameters : Int → Int → Option String → Bool

/-- Model of the registry `std::map<std::string, PixelMapper*>` as a partial
map from key strings to mappers. -/
def Registry : Type := String → Option PixelMapper

/-- Lower-cased key used by registration and lookup (`tolower` per char). -/
def lowerString (s : String) : String :=
  String.mk (s.toList.map ctolower)

/-- Embedding of `RegisterPixelMapperInternal`: stores the mapper under its
lower-cased name, overwriting any previous entry
(`(*registry)[lower_name] = mapper`). -/
def registerPixelMapperInternal (reg : Registry) (m : PixelMapper) :
    Registry :=
  fun k => if k = lowerString m.name then some m else reg k

/-- Embedding of `FindPixelMapper`: case-insensitive lookup followed by
`SetParameters`; returns the mapper only when configuration succeeded.  The
second component is the registry after the call (`std::map::find` never
inserts, so it is returned unchanged on every path). -/
def findPixelMapper (reg : Registry) (name : String) (chain parallel : Int)
    (parameter : Option String) : Option PixelMapper × Registry :=
  match reg (lowerString name) with
  | none => (none, reg)
  | some m =>
    (if m.setParameters chain parallel parameter then some m else none, reg)

/-!
## Size/mapping agreement and injectivity
-/

/-- The mapping `f` agrees with the visible size `vw x vh`: every visible
coordinate is assigned a matrix coordinate inside `[0, mw) x [0, mh)`, and
distinct visible coordinates get distinct matrix coordinates. -/
def GoodMapping (vw vh mw mh : Int) (f : Int → Int → Option (Int × Int)) :
    Prop :=
  (∀ x y, InRange vw vh x y → ∃ p, f x y = some p ∧ InRange mw mh p.1 p.2) ∧
  (∀ x1 y1 x2 y2, InRange vw vh x1 y1 → InRange vw vh x2 y2 →
    f x1 y1 = f x2 y2 → x1 = x2 ∧ y1 = y2)

lemma rotateSize_zero (mw mh : Int) :
    rotateGetSizeMapping 0 mw mh = ((mw, mh), true) := by
  rw [rotateGetSizeMapping, if_pos (by decide)]

lemma rotateSize_90 (mw mh : Int) :
    rotateGetSizeMapping 90 mw mh = ((mh, mw), true) := by
  rw [rotateGetSizeMapping, if_neg (by decide)]

lemma rotateSize_180 (mw mh : Int) :
    rotateGetSizeMapping 180 mw mh = ((mw, mh), true) := by
  rw [rotateGetSizeMapping, if_pos (by decide)]

lemma rotateSize_270 (mw mh : Int) :
    rotateGetSizeMapping 270 mw mh = ((mh, mw), true) := by
  rw [rotateGetSizeMapping, if_neg (by decide)]

lemma rotateMap_zero (mw mh x y : Int) :
    rotateMapVisibleToMatrix 0 mw mh x y = some (x, y) := by
  rw [rotateMapVisibleToMatrix, if_pos rfl]

lemma rotateMap_90 (mw mh x y : Int) :
    rotateMapVisibleToMatrix 90 mw mh x y = some (mw - y - 1, x) := by
  rw [rotateMapVisibleToMatrix, if_neg (by decide), if_pos rfl]

lemma rotateMap_180 (mw mh x y : Int) :
    rotateMapVisibleToMatrix 180 mw mh x y = some (mw - x - 1, mh - y - 1) := by
  rw [rotateMapVisibleToMatrix, if_neg (by decide), if_neg (by decide),
    if_pos rfl]

lemma rotateMap_270 (mw mh x y : Int) :
    rotateMapVisibleToMatrix 270 mw mh x y = some (y, mh - x - 1) := by
  rw [rotateMapVisibleToMatrix, if_neg (by decide), if_neg (by decide),
    if_neg (by decide), if_pos rfl]

lemma rotate_good (angle mw mh : Int)
    (h : angle = 0 ∨ angle = 90 ∨ angle = 180 ∨ angle = 270) :
    GoodMapping (rotateGetSizeMapping angle mw mh).1.1
      (rotateGetSizeMapping angle mw mh).1.2 mw mh
      (fun x y => rotateMapVisibleToMatrix angle mw mh x y) := by
  rcases h with rfl | rfl | rfl | rfl
  · rw [rotateSize_zero]
    refine ⟨fun x y hxy => ⟨(x, y), rotateMap_zero mw mh x y, ?_⟩,
      fun x1 y1 x2 y2 h1 h2 h12 => ?_⟩
    · simpa [InRange] using hxy
    · simp only [rotateMap_zero, Option.some_inj, Prod.mk.injEq] at h12
      exact h12
  · rw [rotateSize_90]
    refine ⟨fun x y hxy => ⟨(mw - y - 1, x), rotateMap_90 mw mh x y, ?_⟩,
      fun x1 y1 x2 y2 h1 h2 h12 => ?_⟩
    · simp only [InRange] at hxy ⊢
      omega
    · simp only [rotateMap_90, Option.some_inj, Prod.mk.injEq] at h12
      omega
  · rw [rotateSize_180]
    refine ⟨fun x y hxy =>
        ⟨(mw - x - 1, mh - y - 1), rotateMap_180 mw mh x y, ?_⟩,
      fun x1 y1 x2 y2 h1 h2 h12 => ?_⟩
    · simp only [InRange] at hxy ⊢
      omega
    · simp only [rotateMap_180, Option.some_inj, Prod.mk.injEq] at h12
      omega
  · rw [rotateSize_270]
    refine ⟨fun x y hxy => ⟨(y, mh - x - 1), rotateMap_270 mw mh x y, ?_⟩,
      fun x1 y1 x2 y2 h1 h2 h12 => ?_⟩
    · simp only [InRange] at hxy ⊢
      omega
    · simp only [rotateMap_270, Option.some_inj, Prod.mk.injEq] at h12
      omega

lemma mirror_good (horizontal : Bool) (mw mh : Int) :
    GoodMapping mw mh mw mh
      (fun x y => some (mirrorMapVisibleToMatrix horizontal mw mh x y)) := by
  cases horizontal
  · refine ⟨fun x y hxy => ⟨(x, mh - 1 - y), by
        simp [mirrorMapVisibleToMatrix], ?_⟩,
      fun x1 y1 x2 y2 h1 h2 h12 => ?_⟩
    · simp only [InRange] at hxy ⊢
      omega
    · simp only [mirrorMapVisibleToMatrix, Bool.false_eq_true, if_false,
        Option.some_inj, Prod.mk.injEq] at h12
      omega
  · refine ⟨fun x y hxy => ⟨(mw - 1 - x, y), by
        simp [mirrorMapVisibleToMatrix], ?_⟩,
      fun x1 y1 x2 y2 h1 h2 h12 => ?_⟩
    · simp only [InRange] at hxy ⊢
      omega
    · simp only [mirrorMapVisibleToMatrix, if_true, Option.some_inj,
        Prod.mk.injEq] at h12
      omega

lemma cdiv_nonpos_of_nonpos {a b : Int} (ha : a ≤ 0) (hb : 0 ≤ b) :
    cdiv a b ≤ 0 := by
  have h := Int.tdiv_nonneg (a := -a) (b := b) (by omega) hb
  rw [Int.neg_tdiv] at h
  simp only [cdiv]
  omega

lemma pos_factor_right {a b : Int} (ha : 0 < a) (hab : 0 < a * b) : 0 < b := by
  by_contra hc
  push_neg at hc
  have : a * b ≤ 0 := by nlinarith
  omega

lemma uMap_branch1 {parallel mw mh x y : Int}
    (h : cmod y (2 * cdiv mh parallel) < cdiv mh parallel) :
    uMapVisibleToMatrix parallel mw mh x y =
      (x + cdiv mw 2,
       cdiv y (2 * cdiv mh parallel) * cdiv mh parallel +
         cmod y (2 * cdiv mh parallel)) := by
  simp only [uMapVisibleToMatrix]
  rw [if_pos h]

lemma uMap_branch2 {parallel mw mh x y : Int}
    (h : ¬ cmod y (2 * cdiv mh parallel) < cdiv mh parallel) :
    uMapVisibleToMatrix parallel mw mh x y =
      (cdiv mw 64 * 32 - x - 1,
       cdiv y (2 * cdiv mh parallel) * cdiv mh parallel +
         (2 * cdiv mh parallel - cmod y (2 * cdiv mh parallel) - 1)) := by
  simp only [uMapVisibleToMatrix]
  rw [if_neg h]

lemma u_good (parallel mw mh : Int) (hpar : 0 < parallel)
    (hdvd : parallel ∣ mh) :
    GoodMapping (cdiv mw 64 * 32) (2 * mh) mw mh
      (fun x y => some (uMapVisibleToMatrix parallel mw mh x y)) := by
  have hmh : parallel * cdiv mh parallel = mh := cdiv_exact (by omega) hdvd
  constructor
  · intro x y hxy
    simp only [InRange] at hxy
    obtain ⟨hx0, hxlt, hy0, hylt⟩ := hxy
    have hmw0 : 0 < mw := by
      by_contra hc
      push_neg at hc
      have := cdiv_nonpos_of_nonpos hc (show (0:Int) ≤ 64 by omega)
      omega
    have h64 : 64 * cdiv mw 64 ≤ mw := mul_cdiv_le (by omega) (by omega)
    have h2a : 2 * cdiv mw 2 + cmod mw 2 = mw := cdiv_add_cmod mw 2
    have h2b : cmod mw 2 < 2 := cmod_lt_of_pos mw (by omega)
    have h2c : 0 ≤ cmod mw 2 := cmod_nonneg 2 hmw0.le
    have hmh0 : 0 < mh := by omega
    have hph : 0 < cdiv mh parallel := pos_factor_right hpar (by omega)
    have hslab : (0:Int) < 2 * cdiv mh parallel := by omega
    have hqy0 : 0 ≤ cdiv y (2 * cdiv mh parallel) := cdiv_nonneg hy0 (by omega)
    have hqylt : cdiv y (2 * cdiv mh parallel) < parallel := by
      apply cdiv_lt_of_lt_mul hy0 hslab
      nlinarith
    have hrm0 : 0 ≤ cmod y (2 * cdiv mh parallel) := cmod_nonneg _ hy0
    have hrmlt : cmod y (2 * cdiv mh parallel) < 2 * cdiv mh parallel :=
      cmod_lt_of_pos _ hslab
    rcases lt_or_ge (cmod y (2 * cdiv mh parallel)) (cdiv mh parallel)
      with hbr | hbr
    · refine ⟨_, rfl, ?_⟩
      rw [uMap_branch1 hbr]
      have hblock := block_bounds hph hqy0 hqylt hrm0 hbr
      simp only [InRange]
      exact ⟨by omega, by omega, hblock.1, by linarith [hblock.2]⟩
    · refine ⟨_, rfl, ?_⟩
      rw [uMap_branch2 (not_lt.mpr hbr)]
      have hr0 : 0 ≤ 2 * cdiv mh parallel - cmod y (2 * cdiv mh parallel) - 1 :=
        by omega
      have hrb : 2 * cdiv mh parallel - cmod y (2 * cdiv mh parallel) - 1 <
          cdiv mh parallel := by omega
      have hblock := block_bounds hph hqy0 hqylt hr0 hrb
      simp only [InRange]
      exact ⟨by omega, by omega, hblock.1, by linarith [hblock.2]⟩
  · intro x1 y1 x2 y2 h1 h2 h12
    simp only [InRange] at h1 h2
    obtain ⟨hx10, hx1lt, hy10, hy1lt⟩ := h1
    obtain ⟨hx20, hx2lt, hy20, hy2lt⟩ := h2
    simp only [Option.some_inj] at h12
    have hmw0 : 0 < mw := by
      by_contra hc
      push_neg at hc
      have := cdiv_nonpos_of_nonpos hc (show (0:Int) ≤ 64 by omega)
      omega
    have h64 : 64 * cdiv mw 64 ≤ mw := mul_cdiv_le (by omega) (by omega)
    have h2a : 2 * cdiv mw 2 + cmod mw 2 = mw := cdiv_add_cmod mw 2
    have h2b : cmod mw 2 < 2 := cmod_lt_of_pos mw (by omega)
    have h2c : 0 ≤ cmod mw 2 := cmod_nonneg 2 hmw0.le
    have hmh0 : 0 < mh := by omega
    have hph : 0 < cdiv mh parallel := pos_factor_right hpar (by omega)
    have hslab : (0:Int) < 2 * cdiv mh parallel := by omega
    have hrm10 : 0 ≤ cmod y1 (2 * cdiv mh parallel) := cmod_nonneg _ hy10
    have hrm1lt : cmod y1 (2 * cdiv mh parallel) < 2 * cdiv mh parallel :=
      cmod_lt_of_pos _ hslab
    have hdec1 : 2 * cdiv mh parallel * cdiv y1 (2 * cdiv mh parallel) +
        cmod y1 (2 * cdiv mh parallel) = y1 := cdiv_add_cmod y1 _
    have hrm20 : 0 ≤ cmod y2 (2 * cdiv mh parallel) := cmod_nonneg _ hy20
    have hrm2lt : cmod y2 (2 * cdiv mh parallel) < 2 * cdiv mh parallel :=
      cmod_lt_of_pos _ hslab
    have hdec2 : 2 * cdiv mh parallel * cdiv y2 (2 * cdiv mh parallel) +
        cmod y2 (2 * cdiv mh parallel) = y2 := cdiv_add_cmod y2 _
    rcases lt_or_ge (cmod y1 (2 * cdiv mh parallel)) (cdiv mh parallel)
      with hbr1 | hbr1 <;>
      rcases lt_or_ge (cmod y2 (2 * cdiv mh parallel)) (cdiv mh parallel)
        with hbr2 | hbr2
    · rw [uMap_branch1 hbr1, uMap_branch1 hbr2] at h12
      simp only [Prod.mk.injEq] at h12
      obtain ⟨e1, e2⟩ := h12
      have hb := block_inj hph hrm10 hbr1 hrm20 hbr2 e2
      have hq : cdiv y1 (2 * cdiv mh parallel) =
          cdiv y2 (2 * cdiv mh parallel) := hb.1
      rw [hq] at hdec1
      refine ⟨by omega, by linarith [hb.2]⟩
    · rw [uMap_branch1 hbr1, uMap_branch2 (not_lt.mpr hbr2)] at h12
      simp only [Prod.mk.injEq] at h12
      omega
    · rw [uMap_branch2 (not_lt.mpr hbr1), uMap_branch1 hbr2] at h12
      simp only [Prod.mk.injEq] at h12
      omega
    · rw [uMap_branch2 (not_lt.mpr hbr1), uMap_branch2 (not_lt.mpr hbr2)]
        at h12
      simp only [Prod.mk.injEq] at h12
      obtain ⟨e1, e2⟩ := h12
      have hr10 : 0 ≤ 2 * cdiv mh parallel -
          cmod y1 (2 * cdiv mh parallel) - 1 := by omega
      have hr1b : 2 * cdiv mh parallel - cmod y1 (2 * cdiv mh parallel) - 1 <
          cdiv mh parallel := by omega
      have hr20 : 0 ≤ 2 * cdiv mh parallel -
          cmod y2 (2 * cdiv mh parallel) - 1 := by omega
      have hr2b : 2 * cdiv mh parallel - cmod y2 (2 * cdiv mh parallel) - 1 <
          cdiv mh parallel := by omega
      have hb := block_inj hph hr10 hr1b hr20 hr2b e2
      have hq : cdiv y1 (2 * cdiv mh parallel) =
          cdiv y2 (2 * cdiv mh parallel) := hb.1
      rw [hq] at hdec1
      refine ⟨by omega, by linarith [hb.2]⟩

lemma pos_factor_left {a b : Int} (hb : 0 < b) (hab : 0 < a * b) : 0 < a := by
  by_contra hc
  push_neg at hc
  have : a * b ≤ 0 := by nlinarith
  omega

/-- Closed form of the vertical mapping when the matrix dimensions are exact
multiples of the panel grid (`mw = chain * pw`, `mh = parallel * ph`). -/
lemma vMap_eq (st : VerticalState) (pw ph x y : Int) (hch : st.chain ≠ 0)
    (hpar : st.parallel ≠ 0) (hpw : pw ≠ 0) :
    vMapVisibleToMatrix st (st.chain * pw) (st.parallel * ph) x y =
      (cdiv y ph * pw +
        (if st.z && ((if (cmod st.chain 2 ≠ 0 : Bool) then (1:Int) else 0) -
            cmod (cdiv y ph) 2 = 0 : Bool)
         then pw - 1 - cmod x pw else cmod x pw),
       cdiv x pw * ph +
        (if st.z && ((if (cmod st.chain 2 ≠ 0 : Bool) then (1:Int) else 0) -
            cmod (cdiv y ph) 2 = 0 : Bool)
         then ph - 1 - cmod y ph else cmod y ph)) := by
  have h1 : cdiv (st.chain * pw) st.chain = pw :=
    Int.mul_tdiv_cancel_left _ hch
  have h2 : cdiv (st.parallel * ph) st.parallel = ph :=
    Int.mul_tdiv_cancel_left _ hpar
  have h3 : cdiv (st.chain * pw) pw = st.chain := Int.mul_tdiv_cancel _ hpw
  simp only [vMapVisibleToMatrix, h1, h2, h3]

lemma vertical_good (st : VerticalState) (mw mh : Int)
    (hch : 0 < st.chain) (hpar : 0 < st.parallel)
    (hdw : st.chain ∣ mw) (hdh : st.parallel ∣ mh) :
    GoodMapping (cdiv (mw * st.parallel) st.chain)
      (cdiv (mh * st.chain) st.parallel) mw mh
      (fun x y => some (vMapVisibleToMatrix st mw mh x y)) := by
  obtain ⟨pw, rfl⟩ := hdw
  obtain ⟨ph, rfl⟩ := hdh
  have hvw : cdiv (st.chain * pw * st.parallel) st.chain = pw * st.parallel := by
    rw [mul_assoc]
    exact Int.mul_tdiv_cancel_left _ (by omega)
  have hvh : cdiv (st.parallel * ph * st.chain) st.parallel = ph * st.chain := by
    rw [mul_assoc]
    exact Int.mul_tdiv_cancel_left _ (by omega)
  rw [hvw, hvh]
  constructor
  · intro x y hxy
    simp only [InRange] at hxy
    obtain ⟨hx0, hxlt, hy0, hylt⟩ := hxy
    have hpw0 : 0 < pw := pos_factor_left hpar (by omega)
    have hph0 : 0 < ph := pos_factor_left hch (by omega)
    have hqx0 : 0 ≤ cdiv x pw := cdiv_nonneg hx0 hpw0.le
    have hqxlt : cdiv x pw < st.parallel := by
      apply cdiv_lt_of_lt_mul hx0 hpw0
      linarith [mul_comm pw st.parallel]
    have hqy0 : 0 ≤ cdiv y ph := cdiv_nonneg hy0 hph0.le
    have hqylt : cdiv y ph < st.chain := by
      apply cdiv_lt_of_lt_mul hy0 hph0
      linarith [mul_comm ph st.chain]
    have hrx0 : 0 ≤ cmod x pw := cmod_nonneg _ hx0
    have hrxlt : cmod x pw < pw := cmod_lt_of_pos _ hpw0
    have hry0 : 0 ≤ cmod y ph := cmod_nonneg _ hy0
    have hrylt : cmod y ph < ph := cmod_lt_of_pos _ hph0
    refine ⟨_, rfl, ?_⟩
    rw [vMap_eq st pw ph x y (by omega) (by omega) (by omega)]
    have hA : 0 ≤ (if st.z &&
          ((if (cmod st.chain 2 ≠ 0 : Bool) then (1:Int) else 0) -
            cmod (cdiv y ph) 2 = 0 : Bool)
        then pw - 1 - cmod x pw else cmod x pw) ∧
        (if st.z &&
          ((if (cmod st.chain 2 ≠ 0 : Bool) then (1:Int) else 0) -
            cmod (cdiv y ph) 2 = 0 : Bool)
        then pw - 1 - cmod x pw else cmod x pw) < pw := by
      split_ifs <;> omega
    have hB : 0 ≤ (if st.z &&
          ((if (cmod st.chain 2 ≠ 0 : Bool) then (1:Int) else 0) -
            cmod (cdiv y ph) 2 = 0 : Bool)
        then ph - 1 - cmod y ph else cmod y ph) ∧
        (if st.z &&
          ((if (cmod st.chain 2 ≠ 0 : Bool) then (1:Int) else 0) -
            cmod (cdiv y ph) 2 = 0 : Bool)
        then ph - 1 - cmod y ph else cmod y ph) < ph := by
      split_ifs <;> omega
    have hbx := block_bounds hpw0 hqy0 hqylt hA.1 hA.2
    have hby := block_bounds hph0 hqx0 hqxlt hB.1 hB.2
    simp only [InRange]
    exact ⟨hbx.1, by linarith [hbx.2, mul_comm st.chain pw],
      hby.1, by linarith [hby.2, mul_comm st.parallel ph]⟩
  · intro x1 y1 x2 y2 h1 h2 h12
    simp only [InRange] at h1 h2
    obtain ⟨hx10, hx1lt, hy10, hy1lt⟩ := h1
    obtain ⟨hx20, hx2lt, hy20, hy2lt⟩ := h2
    have hpw0 : 0 < pw := pos_factor_left hpar (by omega)
    have hph0 : 0 < ph := pos_factor_left hch (by omega)
    have hqx10 : 0 ≤ cdiv x1 pw := cdiv_nonneg hx10 hpw0.le
    have hqx20 : 0 ≤ cdiv x2 pw := cdiv_nonneg hx20 hpw0.le
    have hqy10 : 0 ≤ cdiv y1 ph := cdiv_nonneg hy10 hph0.le
    have hqy20 : 0 ≤ cdiv y2 ph := cdiv_nonneg hy20 hph0.le
    have hrx10 : 0 ≤ cmod x1 pw := cmod_nonneg _ hx10
    have hrx1lt : cmod x1 pw < pw := cmod_lt_of_pos _ hpw0
    have hrx20 : 0 ≤ cmod x2 pw := cmod_nonneg _ hx20
    have hrx2lt : cmod x2 pw < pw := cmod_lt_of_pos _ hpw0
    have hry10 : 0 ≤ cmod y1 ph := cmod_nonneg _ hy10
    have hry1lt : cmod y1 ph < ph := cmod_lt_of_pos _ hph0
    have hry20 : 0 ≤ cmod y2 ph := cmod_nonneg _ hy20
    have hry2lt : cmod y2 ph < ph := cmod_lt_of_pos _ hph0
    have hdx1 : pw * cdiv x1 pw + cmod x1 pw = x1 := cdiv_add_cmod x1 pw
    have hdx2 : pw * cdiv x2 pw + cmod x2 pw = x2 := cdiv_add_cmod x2 pw
    have hdy1 : ph * cdiv y1 ph + cmod y1 ph = y1 := cdiv_add_cmod y1 ph
    have hdy2 : ph * cdiv y2 ph + cmod y2 ph = y2 := cdiv_add_cmod y2 ph
    simp only [Option.some_inj] at h12
    rw [vMap_eq st pw ph x1 y1 (by omega) (by omega) (by omega),
      vMap_eq st pw ph x2 y2 (by omega) (by omega) (by omega)] at h12
    simp only [Prod.mk.injEq] at h12
    obtain ⟨e1, e2⟩ := h12
    have hA1 : 0 ≤ (if st.z &&
          ((if (cmod st.chain 2 ≠ 0 : Bool) then (1:Int) else 0) -
            cmod (cdiv y1 ph) 2 = 0 : Bool)
        then pw - 1 - cmod x1 pw else cmod x1 pw) ∧
        (if st.z &&
          ((if (cmod st.chain 2 ≠ 0 : Bool) then (1:Int) else 0) -
            cmod (cdiv y1 ph) 2 = 0 : Bool)
        then pw - 1 - cmod x1 pw else cmod x1 pw) < pw := by
      split_ifs <;> omega
    have hA2 : 0 ≤ (if st.z &&
          ((if (cmod st.chain 2 ≠ 0 : Bool) then (1:Int) else 0) -
            cmod (cdiv y2 ph) 2 = 0 : Bool)
        then pw - 1 - cmod x2 pw else cmod x2 pw) ∧
        (if st.z &&
          ((if (cmod st.chain 2 ≠ 0 : Bool) then (1:Int) else 0) -
            cmod (cdiv y2 ph) 2 = 0 : Bool)
        then pw - 1 - cmod x2 pw else cmod x2 pw) < pw := by
      split_ifs <;> omega
    have hbx := block_inj hpw0 hA1.1 hA1.2 hA2.1 hA2.2 e1
    have hqy : cdiv y1 ph = cdiv y2 ph := hbx.1
    have hAeq := hbx.2
    rw [hqy] at hAeq
    have hrxeq : cmod x1 pw = cmod x2 pw := by
      rcases Bool.eq_false_or_eq_true (st.z &&
          ((if (cmod st.chain 2 ≠ 0 : Bool) then (1:Int) else 0) -
            cmod (cdiv y2 ph) 2 = 0 : Bool)) with hc | hc <;>
        rw [hc] at hAeq <;> simp at hAeq <;> omega
    have hB1 : 0 ≤ (if st.z &&
          ((if (cmod st.chain 2 ≠ 0 : Bool) then (1:Int) else 0) -
            cmod (cdiv y1 ph) 2 = 0 : Bool)
        then ph - 1 - cmod y1 ph else cmod y1 ph) ∧
        (if st.z &&
          ((if (cmod st.chain 2 ≠ 0 : Bool) then (1:Int) else 0) -
            cmod (cdiv y1 ph) 2 = 0 : Bool)
        then ph - 1 - cmod y1 ph else cmod y1 ph) < ph := by
      split_ifs <;> omega
    have hB2 : 0 ≤ (if st.z &&
          ((if (cmod st.chain 2 ≠ 0 : Bool) then (1:Int) else 0) -
            cmod (cdiv y2 ph) 2 = 0 : Bool)
        then ph - 1 - cmod y2 ph else cmod y2 ph) ∧
        (if st.z &&
          ((if (cmod st.chain 2 ≠ 0 : Bool) then (1:Int) else 0) -
            cmod (cdiv y2 ph) 2 = 0 : Bool)
        then ph - 1 - cmod y2 ph else cmod y2 ph) < ph := by
      split_ifs <;> omega
    have hby := block_inj hph0 hB1.1 hB1.2 hB2.1 hB2.2 e2
    have hqx : cdiv x1 pw = cdiv x2 pw := hby.1
    have hBeq := hby.2
    rw [hqy] at hBeq
    have hryeq : cmod y1 ph = cmod y2 ph := by
      rcases Bool.eq_false_or_eq_true (st.z &&
          ((if (cmod st.chain 2 ≠ 0 : Bool) then (1:Int) else 0) -
            cmod (cdiv y2 ph) 2 = 0 : Bool)) with hc | hc <;>
        rw [hc] at hBeq <;> simp at hBeq <;> omega
    rw [hqx] at hdx1
    rw [hqy] at hdy1
    constructor
    · rw [hrxeq] at hdx1
      linarith
    · rw [hryeq] at hdy1
      linarith

/-- Canonical block form of the windmill mapping for a coordinate in the
left half (the final 180-degree correction folded in). -/
lemma windmill_form_left (st : WindmillState) (mw mh x y : Int)
    (hpar : st.parallel = 2) (hl : cdiv x (cdiv mh 2) < st.chain) :
    windmillMapVisibleToMatrix st mw mh x y =
      (cdiv x (cdiv mh 2) * cdiv mw st.chain +
        (if st.z && (cmod (cdiv x (cdiv mh 2)) 2 = 1) then y
         else cdiv mw st.chain - 1 - y),
       (if st.swap_lr then (1:Int) else 0) * cdiv mh 2 +
        (if st.z && (cmod (cdiv x (cdiv mh 2)) 2 = 1) then cmod x (cdiv mh 2)
         else cdiv mh 2 - 1 - cmod x (cdiv mh 2))) := by
  simp only [windmillMapVisibleToMatrix]
  rw [hpar]
  simp only [hl, if_true]
  split_ifs <;> simp only [Prod.mk.injEq] <;> constructor <;> ring

/-- Canonical block form of the windmill mapping for a coordinate in the
right half. -/
lemma windmill_form_right (st : WindmillState) (mw mh x y : Int)
    (hpar : st.parallel = 2) (hr : ¬ cdiv x (cdiv mh 2) < st.chain) :
    windmillMapVisibleToMatrix st mw mh x y =
      ((2 * st.chain - 1 - cdiv x (cdiv mh 2)) * cdiv mw st.chain +
        (if st.z && (cmod (2 * st.chain - 1 - cdiv x (cdiv mh 2)) 2 = 1)
         then cdiv mw st.chain - 1 - y else y),
       (if st.swap_lr then (0:Int) else 1) * cdiv mh 2 +
        (if st.z && (cmod (2 * st.chain - 1 - cdiv x (cdiv mh 2)) 2 = 1)
         then cmod x (cdiv mh 2)
         else cdiv mh 2 - 1 - cmod x (cdiv mh 2))) := by
  have harg : st.chain - 1 - (cdiv x (cdiv mh 2) - st.chain) =
      2 * st.chain - 1 - cdiv x (cdiv mh 2) := by ring
  simp only [windmillMapVisibleToMatrix]
  rw [hpar]
  simp only [hr, if_false]
  rw [harg]
  split_ifs <;> simp only [Prod.mk.injEq] <;> constructor <;> ring

lemma ite_in {c : Prop} [Decidable c] {u v b : Int}
    (h1 : 0 ≤ u ∧ u < b) (h2 : 0 ≤ v ∧ v < b) :
    0 ≤ (if c then u else v) ∧ (if c then u else v) < b := by
  split_ifs
  · exact h1
  · exact h2

lemma windmill_good (st : WindmillState) (mw mh : Int)
    (hch : 0 < st.chain) (hpar : st.parallel = 2) :
    GoodMapping (cdiv mh 2 * st.chain * 2) (cdiv mw st.chain) mw mh
      (fun x y => some (windmillMapVisibleToMatrix st mw mh x y)) := by
  constructor
  · intro x y hxy
    simp only [InRange] at hxy
    obtain ⟨hx0, hxlt, hy0, hylt⟩ := hxy
    have hvw0 : 0 < cdiv mh 2 * st.chain * 2 := by linarith
    have hph2 : 0 < cdiv mh 2 :=
      pos_factor_left hch (pos_factor_left (by omega) hvw0)
    have hpw : 0 < cdiv mw st.chain := by linarith
    have hmw0 : 0 < mw := by
      by_contra hc
      push_neg at hc
      have := cdiv_nonpos_of_nonpos hc hch.le
      omega
    have hmh0 : 0 < mh := by
      by_contra hc
      push_neg at hc
      have := cdiv_nonpos_of_nonpos hc (show (0:Int) ≤ 2 by omega)
      omega
    have hwle : st.chain * cdiv mw st.chain ≤ mw := by
      have ha := cdiv_add_cmod mw st.chain
      have hb := cmod_nonneg st.chain hmw0.le
      linarith
    have hhle : 2 * cdiv mh 2 ≤ mh := by
      have ha := cdiv_add_cmod mh 2
      have hb := cmod_nonneg 2 hmh0.le
      linarith
    have hpi0 : 0 ≤ cdiv x (cdiv mh 2) := cdiv_nonneg hx0 hph2.le
    have hpilt : cdiv x (cdiv mh 2) < st.chain * 2 := by
      apply cdiv_lt_of_lt_mul hx0 hph2
      linarith [show cdiv mh 2 * st.chain * 2 = st.chain * 2 * cdiv mh 2
        from by ring]
    have hrx0 : 0 ≤ cmod x (cdiv mh 2) := cmod_nonneg _ hx0
    have hrxlt : cmod x (cdiv mh 2) < cdiv mh 2 := cmod_lt_of_pos _ hph2
    by_cases hl : cdiv x (cdiv mh 2) < st.chain
    · refine ⟨_, rfl, ?_⟩
      rw [windmill_form_left st mw mh x y hpar hl]
      have hA := ite_in (b := cdiv mw st.chain)
        (u := y) (v := cdiv mw st.chain - 1 - y)
        (c := (st.z && decide (cmod (cdiv x (cdiv mh 2)) 2 = 1)) = true)
        ⟨by omega, by omega⟩ ⟨by omega, by omega⟩
      have hB := ite_in (b := cdiv mh 2)
        (u := cmod x (cdiv mh 2)) (v := cdiv mh 2 - 1 - cmod x (cdiv mh 2))
        (c := (st.z && decide (cmod (cdiv x (cdiv mh 2)) 2 = 1)) = true)
        ⟨by omega, by omega⟩ ⟨by omega, by omega⟩
      have hp2 : (0:Int) ≤ (if st.swap_lr then (1:Int) else 0) ∧
          (if st.swap_lr then (1:Int) else 0) < 2 := by
        split_ifs <;> omega
      have hbx := block_bounds hpw hpi0 hl hA.1 hA.2
      have hby := block_bounds hph2 hp2.1 hp2.2 hB.1 hB.2
      simp only [InRange]
      exact ⟨hbx.1, by linarith [hbx.2], hby.1, by linarith [hby.2]⟩
    · refine ⟨_, rfl, ?_⟩
      rw [windmill_form_right st mw mh x y hpar hl]
      have hq0 : 0 ≤ 2 * st.chain - 1 - cdiv x (cdiv mh 2) := by omega
      have hqlt : 2 * st.chain - 1 - cdiv x (cdiv mh 2) < st.chain := by omega
      have hA := ite_in (b := cdiv mw st.chain)
        (u := cdiv mw st.chain - 1 - y) (v := y)
        (c := (st.z &&
          decide (cmod (2 * st.chain - 1 - cdiv x (cdiv mh 2)) 2 = 1)) = true)
        ⟨by omega, by omega⟩ ⟨by omega, by omega⟩
      have hB := ite_in (b := cdiv mh 2)
        (u := cmod x (cdiv mh 2)) (v := cdiv mh 2 - 1 - cmod x (cdiv mh 2))
        (c := (st.z &&
          decide (cmod (2 * st.chain - 1 - cdiv x (cdiv mh 2)) 2 = 1)) = true)
        ⟨by omega, by omega⟩ ⟨by omega, by omega⟩
      have hp2 : (0:Int) ≤ (if st.swap_lr then (0:Int) else 1) ∧
          (if st.swap_lr then (0:Int) else 1) < 2 := by
        split_ifs <;> omega
      have hbx := block_bounds hpw hq0 hqlt hA.1 hA.2
      have hby := block_bounds hph2 hp2.1 hp2.2 hB.1 hB.2
      simp only [InRange]
      exact ⟨hbx.1, by linarith [hbx.2], hby.1, by linarith [hby.2]⟩
  · intro x1 y1 x2 y2 h1 h2 h12
    simp only [InRange] at h1 h2
    obtain ⟨hx10, hx1lt, hy10, hy1lt⟩ := h1
    obtain ⟨hx20, hx2lt, hy20, hy2lt⟩ := h2
    have hvw0 : 0 < cdiv mh 2 * st.chain * 2 := by linarith
    have hph2 : 0 < cdiv mh 2 :=
      pos_factor_left hch (pos_factor_left (by omega) hvw0)
    have hpw : 0 < cdiv mw st.chain := by linarith
    have hpi10 : 0 ≤ cdiv x1 (cdiv mh 2) := cdiv_nonneg hx10 hph2.le
    have hpi1lt : cdiv x1 (cdiv mh 2) < st.chain * 2 := by
      apply cdiv_lt_of_lt_mul hx10 hph2
      linarith [show cdiv mh 2 * st.chain * 2 = st.chain * 2 * cdiv mh 2
        from by ring]
    have hpi20 : 0 ≤ cdiv x2 (cdiv mh 2) := cdiv_nonneg hx20 hph2.le
    have hpi2lt : cdiv x2 (cdiv mh 2) < st.chain * 2 := by
      apply cdiv_lt_of_lt_mul hx20 hph2
      linarith [show cdiv mh 2 * st.chain * 2 = st.chain * 2 * cdiv mh 2
        from by ring]
    have hrx10 : 0 ≤ cmod x1 (cdiv mh 2) := cmod_nonneg _ hx10
    have hrx1lt : cmod x1 (cdiv mh 2) < cdiv mh 2 := cmod_lt_of_pos _ hph2
    have hrx20 : 0 ≤ cmod x2 (cdiv mh 2) := cmod_nonneg _ hx20
    have hrx2lt : cmod x2 (cdiv mh 2) < cdiv mh 2 := cmod_lt_of_pos _ hph2
    have hdx1 : cdiv mh 2 * cdiv x1 (cdiv mh 2) + cmod x1 (cdiv mh 2) = x1 :=
      cdiv_add_cmod x1 (cdiv mh 2)
    have hdx2 : cdiv mh 2 * cdiv x2 (cdiv mh 2) + cmod x2 (cdiv mh 2) = x2 :=
      cdiv_add_cmod x2 (cdiv mh 2)
    have hswapne : (if st.swap_lr then (1:Int) else 0) ≠
        (if st.swap_lr then (0:Int) else 1) := by
      split_ifs <;> omega
    simp only [Option.some_inj] at h12
    by_cases hl1 : cdiv x1 (cdiv mh 2) < st.chain <;>
      by_cases hl2 : cdiv x2 (cdiv mh 2) < st.chain
    · rw [windmill_form_left st mw mh x1 y1 hpar hl1,
        windmill_form_left st mw mh x2 y2 hpar hl2] at h12
      simp only [Prod.mk.injEq] at h12
      obtain ⟨e1, e2⟩ := h12
      have hA1 := ite_in (b := cdiv mw st.chain)
        (u := y1) (v := cdiv mw st.chain - 1 - y1)
        (c := (st.z && decide (cmod (cdiv x1 (cdiv mh 2)) 2 = 1)) = true)
        ⟨by omega, by omega⟩ ⟨by omega, by omega⟩
      have hA2 := ite_in (b := cdiv mw st.chain)
        (u := y2) (v := cdiv mw st.chain - 1 - y2)
        (c := (st.z && decide (cmod (cdiv x2 (cdiv mh 2)) 2 = 1)) = true)
        ⟨by omega, by omega⟩ ⟨by omega, by omega⟩
      have hbx := block_inj hpw hA1.1 hA1.2 hA2.1 hA2.2 e1
      have hpi : cdiv x1 (cdiv mh 2) = cdiv x2 (cdiv mh 2) := hbx.1
      have hA := hbx.2
      rw [hpi] at hA
      have hyeq : y1 = y2 := by
        split_ifs at hA <;> omega
      have hB1 := ite_in (b := cdiv mh 2)
        (u := cmod x1 (cdiv mh 2)) (v := cdiv mh 2 - 1 - cmod x1 (cdiv mh 2))
        (c := (st.z && decide (cmod (cdiv x1 (cdiv mh 2)) 2 = 1)) = true)
        ⟨by omega, by omega⟩ ⟨by omega, by omega⟩
      have hB2 := ite_in (b := cdiv mh 2)
        (u := cmod x2 (cdiv mh 2)) (v := cdiv mh 2 - 1 - cmod x2 (cdiv mh 2))
        (c := (st.z && decide (cmod (cdiv x2 (cdiv mh 2)) 2 = 1)) = true)
        ⟨by omega, by omega⟩ ⟨by omega, by omega⟩
      have hby := block_inj hph2 hB1.1 hB1.2 hB2.1 hB2.2 e2
      have hB := hby.2
      rw [hpi] at hB
      have hrxeq : cmod x1 (cdiv mh 2) = cmod x2 (cdiv mh 2) := by
        split_ifs at hB <;> omega
      rw [hpi, hrxeq] at hdx1
      exact ⟨by linarith, hyeq⟩
    · rw [windmill_form_left st mw mh x1 y1 hpar hl1,
        windmill_form_right st mw mh x2 y2 hpar hl2] at h12
      simp only [Prod.mk.injEq] at h12
      obtain ⟨e1, e2⟩ := h12
      have hB1 := ite_in (b := cdiv mh 2)
        (u := cmod x1 (cdiv mh 2)) (v := cdiv mh 2 - 1 - cmod x1 (cdiv mh 2))
        (c := (st.z && decide (cmod (cdiv x1 (cdiv mh 2)) 2 = 1)) = true)
        ⟨by omega, by omega⟩ ⟨by omega, by omega⟩
      have hB2 := ite_in (b := cdiv mh 2)
        (u := cmod x2 (cdiv mh 2)) (v := cdiv mh 2 - 1 - cmod x2 (cdiv mh 2))
        (c := (st.z &&
          decide (cmod (2 * st.chain - 1 - cdiv x2 (cdiv mh 2)) 2 = 1)) = true)
        ⟨by omega, by omega⟩ ⟨by omega, by omega⟩
      have hby := block_inj hph2 hB1.1 hB1.2 hB2.1 hB2.2 e2
      exact absurd hby.1 hswapne
    · rw [windmill_form_right st mw mh x1 y1 hpar hl1,
        windmill_form_left st mw mh x2 y2 hpar hl2] at h12
      simp only [Prod.mk.injEq] at h12
      obtain ⟨e1, e2⟩ := h12
      have hB1 := ite_in (b := cdiv mh 2)
        (u := cmod x1 (cdiv mh 2)) (v := cdiv mh 2 - 1 - cmod x1 (cdiv mh 2))
        (c := (st.z &&
          decide (cmod (2 * st.chain - 1 - cdiv x1 (cdiv mh 2)) 2 = 1)) = true)
        ⟨by omega, by omega⟩ ⟨by omega, by omega⟩
      have hB2 := ite_in (b := cdiv mh 2)
        (u := cmod x2 (cdiv mh 2)) (v := cdiv mh 2 - 1 - cmod x2 (cdiv mh 2))
        (c := (st.z && decide (cmod (cdiv x2 (cdiv mh 2)) 2 = 1)) = true)
        ⟨by omega, by omega⟩ ⟨by omega, by omega⟩
      have hby := block_inj hph2 hB1.1 hB1.2 hB2.1 hB2.2 e2
      exact absurd hby.1 (Ne.symm hswapne)
    · rw [windmill_form_right st mw mh x1 y1 hpar hl1,
        windmill_form_right st mw mh x2 y2 hpar hl2] at h12
      simp only [Prod.mk.injEq] at h12
      obtain ⟨e1, e2⟩ := h12
      have hq10 : 0 ≤ 2 * st.chain - 1 - cdiv x1 (cdiv mh 2) := by omega
      have hq1lt : 2 * st.chain - 1 - cdiv x1 (cdiv mh 2) < st.chain := by
        omega
      have hq20 : 0 ≤ 2 * st.chain - 1 - cdiv x2 (cdiv mh 2) := by omega
      have hq2lt : 2 * st.chain - 1 - cdiv x2 (cdiv mh 2) < st.chain := by
        omega
      have hA1 := ite_in (b := cdiv mw st.chain)
        (u := cdiv mw st.chain - 1 - y1) (v := y1)
        (c := (st.z &&
          decide (cmod (2 * st.chain - 1 - cdiv x1 (cdiv mh 2)) 2 = 1)) = true)
        ⟨by omega, by omega⟩ ⟨by omega, by omega⟩
      have hA2 := ite_in (b := cdiv mw st.chain)
        (u := cdiv mw st.chain - 1 - y2) (v := y2)
        (c := (st.z &&
          decide (cmod (2 * st.chain - 1 - cdiv x2 (cdiv mh 2)) 2 = 1)) = true)
        ⟨by omega, by omega⟩ ⟨by omega, by omega⟩
      have hbx := block_inj hpw hA1.1 hA1.2 hA2.1 hA2.2 e1
      have hpi : cdiv x1 (cdiv mh 2) = cdiv x2 (cdiv mh 2) := by
        have := hbx.1
        omega
      have hA := hbx.2
      rw [hpi] at hA
      have hyeq : y1 = y2 := by
        split_ifs at hA <;> omega
      have hB1 := ite_in (b := cdiv mh 2)
        (u := cmod x1 (cdiv mh 2)) (v := cdiv mh 2 - 1 - cmod x1 (cdiv mh 2))
        (c := (st.z &&
          decide (cmod (2 * st.chain - 1 - cdiv x1 (cdiv mh 2)) 2 = 1)) = true)
        ⟨by omega, by omega⟩ ⟨by omega, by omega⟩
      have hB2 := ite_in (b := cdiv mh 2)
        (u := cmod x2 (cdiv mh 2)) (v := cdiv mh 2 - 1 - cmod x2 (cdiv mh 2))
        (c := (st.z &&
          decide (cmod (2 * st.chain - 1 - cdiv x2 (cdiv mh 2)) 2 = 1)) = true)
        ⟨by omega, by omega⟩ ⟨by omega, by omega⟩
      have hby := block_inj hph2 hB1.1 hB1.2 hB2.1 hB2.2 e2
      have hB := hby.2
      rw [hpi] at hB
      have hrxeq : cmod x1 (cdiv mh 2) = cmod x2 (cdiv mh 2) := by
        split_ifs at hB <;> omega
      rw [hpi, hrxeq] at hdx1
      exact ⟨by linarith, hyeq⟩

/-!
## Character-level facts about the case-insensitive comparison
-/

lemma ofNat_toNat_small (n : Nat) (h1 : 97 ≤ n) (h2 : n ≤ 122) :
    (Char.ofNat n).toNat = n := by
  unfold Char.ofNat
  split_ifs with h
  · rfl
  · exact absurd (Or.inl (by omega)) h

lemma char_eq_of_toNat {c d : Char} (h : c.toNat = d.toNat) : c = d :=
  Char.ext (UInt32.ext h)

lemma ctolower_eq_z {c : Char} (h : ctolower c = 'z') : c = 'Z' ∨ c = 'z' := by
  unfold ctolower at h
  split_ifs at h with hc
  · left
    obtain ⟨h1, h2⟩ := hc
    have hn1 : 65 ≤ c.toNat := h1
    have hn2 : c.toNat ≤ 90 := h2
    have hval : (Char.ofNat (c.toNat + 32)).toNat = c.toNat + 32 :=
      ofNat_toNat_small _ (by omega) (by omega)
    have h122 : (Char.ofNat (c.toNat + 32)).toNat = 122 := by rw [h]; rfl
    exact char_eq_of_toNat (show c.toNat = Char.toNat 'Z' by
      show c.toNat = 90
      omega)
  · right
    exact h

/-- The source's `strcasecmp(param, "Z") == 0` test holds exactly for the
two strings "Z" and "z". -/
lemma strcasecmpEq_Z_iff (s : String) :
    strcasecmpEq s "Z" = true ↔ s = "Z" ∨ s = "z" := by
  constructor
  · intro h
    simp only [strcasecmpEq, beq_iff_eq] at h
    have hz : s.toList.map ctolower = ['z'] := by
      rw [h]; rfl
    rcases hl : s.toList with _ | ⟨c, rest⟩
    · rw [hl] at hz; simp at hz
    · rw [hl] at hz
      rcases rest with _ | ⟨d, rest2⟩
      · simp only [List.map_cons, List.map_nil] at hz
        have hc : ctolower c = 'z' := by injection hz
        have hs : s.data = [c] := hl
        rcases ctolower_eq_z hc with rfl | rfl
        · left; exact String.ext hs
        · right; exact String.ext hs
      · simp at hz
  · rintro (rfl | rfl) <;> rfl

/-!
## Claim theorems
-/

/-- C2: after configuring Rotate with a canonical angle 0/90/180/270 (the
states produced by parameters "0", "90", "180", "270"), GetSizeMapping
keeps the size for 0/180 and swaps it for 90/270, and MapVisibleToMatrix
computes the four standard rectangle rotations. -/
theorem claim_C2_rotate_behavior :
    (rotateSetParameters (some "0") = some 0 ∧
     rotateSetParameters (some "90") = some 90 ∧
     rotateSetParameters (some "180") = some 180 ∧
     rotateSetParameters (some "270") = some 270) ∧
    (∀ mw mh : Int,
      rotateGetSizeMapping 0 mw mh = ((mw, mh), true) ∧
      rotateGetSizeMapping 180 mw mh = ((mw, mh), true) ∧
      rotateGetSizeMapping 90 mw mh = ((mh, mw), true) ∧
      rotateGetSizeMapping 270 mw mh = ((mh, mw), true)) ∧
    (∀ mw mh x y : Int,
      rotateMapVisibleToMatrix 0 mw mh x y = some (x, y) ∧
      rotateMapVisibleToMatrix 90 mw mh x y = some (mw - y - 1, x) ∧
      rotateMapVisibleToMatrix 180 mw mh x y = some (mw - x - 1, mh - y - 1) ∧
      rotateMapVisibleToMatrix 270 mw mh x y = some (y, mh - x - 1)) := by
  refine ⟨⟨rfl, rfl, rfl, rfl⟩,
    fun mw mh => ⟨rotateSize_zero mw mh, rotateSize_180 mw mh,
      rotateSize_90 mw mh, rotateSize_270 mw mh⟩,
    fun mw mh x y => ⟨rotateMap_zero mw mh x y, rotateMap_90 mw mh x y,
      rotateMap_180 mw mh x y, rotateMap_270 mw mh x y⟩⟩

/-- C3 (code bug): configuring Rotate with "-450" succeeds but stores the
angle -90, because `(angle + 360) % 360` with C truncated `%` does not
normalize values below -360.  The stored angle -90 matches none of the
switch cases, so MapVisibleToMatrix leaves its outputs unassigned (`none`),
instead of behaving like the canonical angle 270 (which would produce
(0, 31) at pixel (0,0) on a 64x32 matrix).  GetSizeMapping meanwhile does
swap the dimensions for -90, confirming that -450 was meant to act as
270. -/
theorem claim_C3_rotate_mod360_divergence :
    rotateSetParameters (some "-450") = some (-90) ∧
    ((-90 : Int) ≠ 0 ∧ (-90 : Int) ≠ 90 ∧ (-90 : Int) ≠ 180 ∧
      (-90 : Int) ≠ 270) ∧
    (∀ mw mh x y : Int, rotateMapVisibleToMatrix (-90) mw mh x y = none) ∧
    rotateMapVisibleToMatrix 270 64 32 0 0 = some (0, 31) ∧
    rotateGetSizeMapping (-90) 64 32 = ((32, 64), true) := by
  refine ⟨rfl, by decide, fun mw mh x y => ?_, rfl, rfl⟩
  rw [rotateMapVisibleToMatrix, if_neg (by decide), if_neg (by decide),
    if_neg (by decide), if_neg (by decide)]

/-- C4 counterexample: the multi-character parameter "HH" is accepted by
Mirror's configure (the source only prints a warning for a wrong length and
then switches on the first character), contradicting the claim that every
multi-character value is rejected. -/
theorem claim_C4_counterexample : mirrorSetParameters (some "HH") = some true :=
  rfl

/-- C4 (amended): Mirror's configure returns true exactly when the
parameter is empty/null or its first character is one of 'H','h','V','v';
a multi-character parameter only triggers a warning and is accepted based
on its first character. -/
theorem claim_C4_amended_mirror_configure :
    mirrorSetParameters none = some true ∧
    mirrorSetParameters (some "") = some true ∧
    mirrorSetParameters (some "X") = none ∧
    (∀ (s : String) (c : Char) (rest : List Char), s.toList = c :: rest →
      (mirrorSetParameters (some s) = none ↔
        (c ≠ 'V' ∧ c ≠ 'v' ∧ c ≠ 'H' ∧ c ≠ 'h'))) := by
  refine ⟨rfl, rfl, rfl, fun s c rest hs => ?_⟩
  have hlen : ¬ s.length = 0 := by
    have hd : s.data = c :: rest := hs
    show ¬ s.data.length = 0
    rw [hd]
    simp
  simp only [mirrorSetParameters, if_neg hlen, hs]
  constructor
  · intro h
    split_ifs at h with h1 h2
    simp only [Bool.or_eq_true, decide_eq_true_eq] at h1 h2
    push_neg at h1 h2
    exact ⟨h1.1, h1.2, h2.1, h2.2⟩
  · rintro ⟨hv, hv2, hh, hh2⟩
    rw [if_neg (by simp [hv, hv2]), if_neg (by simp [hh, hh2])]

/-- C4 amended witness at the concrete rejected parameter "X". -/
theorem claim_C4_amended_witness :
    mirrorSetParameters (some "X") = none ↔
      ('X' ≠ 'V' ∧ 'X' ≠ 'v' ∧ 'X' ≠ 'H' ∧ 'X' ≠ 'h') :=
  claim_C4_amended_mirror_configure.2.2.2 "X" 'X' [] rfl

/-- C5: Mirror's mapping is an involution on every in-range coordinate for
both axis settings, and GetSizeMapping leaves the size unchanged. -/
theorem claim_C5_mirror_involution :
    ∀ (horizontal : Bool) (mw mh x y : Int), InRange mw mh x y →
      mirrorMapVisibleToMatrix horizontal mw mh
        (mirrorMapVisibleToMatrix horizontal mw mh x y).1
        (mirrorMapVisibleToMatrix horizontal mw mh x y).2 = (x, y) ∧
      mirrorGetSizeMapping mw mh = ((mw, mh), true) := by
  intro horizontal mw mh x y _hxy
  refine ⟨?_, rfl⟩
  cases horizontal <;>
    · simp [mirrorMapVisibleToMatrix, Prod.ext_iff]
      try omega

/-- C5 witness at a concrete in-range coordinate. -/
theorem claim_C5_witness :
    mirrorMapVisibleToMatrix true 4 3
      (mirrorMapVisibleToMatrix true 4 3 1 2).1
      (mirrorMapVisibleToMatrix true 4 3 1 2).2 = (1, 2) ∧
    mirrorGetSizeMapping 4 3 = ((4, 3), true) :=
  claim_C5_mirror_involution true 4 3 1 2 (by decide)

/-- C10: Vertical's configure succeeds for every chain, parallel and
parameter; the serpentine flag is set exactly for the case-insensitive
whole strings "Z"/"z", and every other parameter (including garbage) is
silently treated as serpentine-off. -/
theorem claim_C10_vertical_configure_total :
    (∀ (chain parallel : Int) (param : Option String),
      (vSetParameters chain parallel param).2 = true ∧
      ((vSetParameters chain parallel param).1.z = true ↔
        param = some "Z" ∨ param = some "z")) ∧
    vSetParameters 2 3 (some "Qx:") = (⟨false, 2, 3⟩, true) := by
  refine ⟨fun chain parallel param => ⟨rfl, ?_⟩, rfl⟩
  cases param with
  | none => simp [vSetParameters]
  | some s =>
    simp only [vSetParameters, Option.some_inj]
    rw [strcasecmpEq_Z_iff]

/-- C6: U-mapper's configure fails exactly for chains below 2 or odd
chains; chain=3 fails, chain=4/parallel=1 succeeds and maps a 256x32
matrix to a 128x64 visible canvas; GetSizeMapping fails exactly when the
matrix height is not divisible by parallel. -/
theorem claim_C6_u_mapper_configure :
    (∀ chain parallel : Int,
      uSetParameters chain parallel = none ↔ chain < 2 ∨ ¬ (2 ∣ chain)) ∧
    uSetParameters 3 1 = none ∧
    (uSetParameters 4 1 = some 1 ∧
      uGetSizeMapping 1 256 32 = ((128, 64), true)) ∧
    (∀ parallel mw mh : Int,
      (uGetSizeMapping parallel mw mh).2 = false ↔ ¬ (parallel ∣ mh)) := by
  refine ⟨fun chain parallel => ?_, rfl, ⟨rfl, rfl⟩, fun parallel mw mh => ?_⟩
  · unfold uSetParameters
    split_ifs with h1 h2
    · exact iff_of_true (by trivial) (Or.inl h1)
    · refine iff_of_true (by trivial) (Or.inr ?_)
      intro hdvd
      exact h2 (cmod_eq_zero_iff_dvd.mpr hdvd)
    · push_neg at h1 h2
      refine iff_of_false (by simp) ?_
      push_neg
      exact ⟨h1, cmod_eq_zero_iff_dvd.mp h2⟩
  · simp only [uGetSizeMapping]
    rw [decide_eq_false_iff_not]
    exact not_congr cmod_eq_zero_iff_dvd

/-- The windmill flag-scanning loop fails exactly when some character of
the parameter is neither a recognized flag nor a separator. -/
lemma windmillParseFlags_none_iff (l : List Char) :
    ∀ z s : Bool, windmillParseFlags l z s = none ↔
      ∃ c ∈ l, c ∉ (['Z', 'z', 'S', 's', ':', ',', ';', ' '] : List Char) := by
  induction l with
  | nil =>
    intro z s
    simp [windmillParseFlags]
  | cons c rest ih =>
    intro z s
    simp only [windmillParseFlags]
    split_ifs with h1 h2 h3
    · rw [ih]
      simp only [Bool.or_eq_true, decide_eq_true_eq] at h1
      constructor
      · rintro ⟨d, hd, hnd⟩
        exact ⟨d, List.mem_cons_of_mem c hd, hnd⟩
      · rintro ⟨d, hd, hnd⟩
        rcases List.mem_cons.mp hd with rfl | hd2
        · exact absurd (show d ∈ (['Z', 'z', 'S', 's', ':', ',', ';', ' '] :
            List Char) by rcases h1 with ((rfl | rfl) | rfl) | rfl <;> decide) hnd
        · exact ⟨d, hd2, hnd⟩
    · rw [ih]
      simp only [Bool.or_eq_true, decide_eq_true_eq] at h2
      constructor
      · rintro ⟨d, hd, hnd⟩
        exact ⟨d, List.mem_cons_of_mem c hd, hnd⟩
      · rintro ⟨d, hd, hnd⟩
        rcases List.mem_cons.mp hd with rfl | hd2
        · exact absurd (show d ∈ (['Z', 'z', 'S', 's', ':', ',', ';', ' '] :
            List Char) by rcases h2 with rfl | rfl <;> decide) hnd
        · exact ⟨d, hd2, hnd⟩
    · rw [ih]
      simp only [Bool.or_eq_true, decide_eq_true_eq] at h3
      constructor
      · rintro ⟨d, hd, hnd⟩
        exact ⟨d, List.mem_cons_of_mem c hd, hnd⟩
      · rintro ⟨d, hd, hnd⟩
        rcases List.mem_cons.mp hd with rfl | hd2
        · exact absurd (show d ∈ (['Z', 'z', 'S', 's', ':', ',', ';', ' '] :
            List Char) by rcases h3 with rfl | rfl <;> decide) hnd
        · exact ⟨d, hd2, hnd⟩
    · refine iff_of_true (by trivial) ⟨c, List.mem_cons_self c rest, ?_⟩
      simp only [Bool.or_eq_true, decide_eq_true_eq] at h1 h2 h3
      push_neg at h1 h2 h3
      intro hc
      simp only [List.mem_cons, List.not_mem_nil, or_false] at hc
      tauto

/-- C7: Windmill's configure fails exactly when parallel differs from 2 or
the parameter contains a character other than the flags Z/z/S/s and the
separators; parallel=1 always fails; parallel=2, chain=2 with "Z"
succeeds. -/
theorem claim_C7_windmill_configure :
    (∀ (chain parallel : Int) (param : Option String),
      windmillSetParameters chain parallel param = none ↔
        parallel ≠ 2 ∨ ∃ s, param = some s ∧ ∃ c ∈ s.toList,
          c ∉ (['Z', 'z', 'S', 's', ':', ',', ';', ' '] : List Char)) ∧
    (∀ (chain : Int) (param : Option String),
      windmillSetParameters chain 1 param = none) ∧
    windmillSetParameters 2 2 (some "Z") = some ⟨true, false, 2, 2⟩ := by
  refine ⟨fun chain parallel param => ?_, fun chain param => rfl, rfl⟩
  unfold windmillSetParameters
  split_ifs with hp
  · exact iff_of_true (by trivial) (Or.inl hp)
  · push_neg at hp
    cases param with
    | none =>
      refine iff_of_false (by simp) ?_
      rintro (h | ⟨s, hs, _⟩)
      · exact h hp
      · cases hs
    | some s =>
      rcases hpf : windmillParseFlags s.toList false false with _ | zs
      · simp only [hpf]
        refine iff_of_true (by trivial) (Or.inr ⟨s, rfl, ?_⟩)
        exact (windmillParseFlags_none_iff s.toList false false).mp hpf
      · simp only [hpf]
        refine iff_of_false (by simp) ?_
        rintro (h | ⟨s2, hs2, hbad⟩)
        · exact h hp
        · injection hs2 with hss
          subst hss
          have hnone := (windmillParseFlags_none_iff s.toList false
            false).mpr hbad
          rw [hpf] at hnone
          cases hnone

/-- C8: registration stores a mapper under its lower-cased name and the
find facade lower-cases the query, so a mapper named "Rotate" is located
under "rotate", "ROTATE" and "RoTaTe"; a later registration with the same
lower-cased name replaces the earlier one (last registration wins). -/
theorem claim_C8_registry_case_insensitivity :
    ∀ (reg : Registry) (m m2 : PixelMapper), m.name = "Rotate" →
      (∀ (chain parallel : Int) (param : Option String),
        (findPixelMapper (registerPixelMapperInternal reg m) "rotate"
            chain parallel param).1 =
          if m.setParameters chain parallel param then some m else none) ∧
      (∀ (chain parallel : Int) (param : Option String),
        (findPixelMapper (registerPixelMapperInternal reg m) "ROTATE"
            chain parallel param).1 =
          if m.setParameters chain parallel param then some m else none) ∧
      (∀ (chain parallel : Int) (param : Option String),
        (findPixelMapper (registerPixelMapperInternal reg m) "RoTaTe"
            chain parallel param).1 =
          if m.setParameters chain parallel param then some m else none) ∧
      (lowerString m2.name = lowerString m.name →
        ∀ k, registerPixelMapperInternal (registerPixelMapperInternal reg m)
            m2 k = registerPixelMapperInternal reg m2 k) := by
  intro reg m m2 hname
  have hlow : lowerString m.name = "rotate" := by rw [hname]; decide
  have hreg : ∀ n : String, lowerString n = "rotate" →
      registerPixelMapperInternal reg m (lowerString n) = some m := by
    intro n hn
    unfold registerPixelMapperInternal
    rw [hlow, hn, if_pos rfl]
  refine ⟨fun chain parallel param => ?_, fun chain parallel param => ?_,
    fun chain parallel param => ?_, fun h12 k => ?_⟩
  · simp only [findPixelMapper, hreg "rotate" (by decide)]
  · simp only [findPixelMapper, hreg "ROTATE" (by decide)]
  · simp only [findPixelMapper, hreg "RoTaTe" (by decide)]
  · unfold registerPixelMapperInternal
    by_cases hk : k = lowerString m2.name
    · rw [if_pos hk, if_pos hk]
    · rw [if_neg hk, if_neg hk]
      rw [if_neg (by rw [← h12]; exact hk)]

/-- C8 witness: a concrete mapper named "Rotate" registered into the empty
registry is returned by the find facade under the query "ROTATE". -/
theorem claim_C8_witness :
    (findPixelMapper
        (registerPixelMapperInternal (fun _ => none)
          { name := "Rotate", setParameters := fun _ _ _ => true })
        "ROTATE" 1 1 none).1 =
      some { name := "Rotate", setParameters := fun _ _ _ => true } :=
  (claim_C8_registry_case_insensitivity (fun _ => none)
    { name := "Rotate", setParameters := fun _ _ _ => true }
    { name := "ROTATE", setParameters := fun _ _ _ => false } rfl).2.1 1 1 none

/-- C9: find returns null exactly when the lower-cased name is absent or
the found mapper's configure rejects the arguments; the registry is
returned unchanged on every path; a returned mapper always had a
successful configure and was the registered entry. -/
theorem claim_C9_find_mapper_failure :
    ∀ (reg : Registry) (name : String) (chain parallel : Int)
      (param : Option String),
      ((findPixelMapper reg name chain parallel param).1 = none ↔
        reg (lowerString name) = none ∨
          ∃ m, reg (lowerString name) = some m ∧
            m.setParameters chain parallel param = false) ∧
      (findPixelMapper reg name chain parallel param).2 = reg ∧
      (∀ m, (findPixelMapper reg name chain parallel param).1 = some m →
        m.setParameters chain parallel param = true ∧
        reg (lowerString name) = some m) := by
  intro reg name chain parallel param
  rcases hreg : reg (lowerString name) with _ | m
  · have hfind : findPixelMapper reg name chain parallel param =
        (none, reg) := by
      unfold findPixelMapper
      rw [hreg]
    rw [hfind]
    exact ⟨iff_of_true rfl (Or.inl rfl), rfl,
      fun m hm => absurd hm (by simp)⟩
  · have hfind : findPixelMapper reg name chain parallel param =
        (if m.setParameters chain parallel param then some m else none,
          reg) := by
      unfold findPixelMapper
      rw [hreg]
    by_cases hset : m.setParameters chain parallel param = true
    · rw [if_pos hset] at hfind
      rw [hfind]
      refine ⟨?_, rfl, fun m2 hm2 => ?_⟩
      · refine iff_of_false (by simp) ?_
        rintro (h | ⟨m3, hm3, hf⟩)
        · cases h
        · injection hm3 with e
          subst e
          rw [hset] at hf
          cases hf
      · have e : m = m2 := by injection hm2
        subst e
        exact ⟨hset, rfl⟩
    · have hset2 : m.setParameters chain parallel param = false := by
        revert hset
        cases m.setParameters chain parallel param <;> simp
      rw [if_neg hset] at hfind
      rw [hfind]
      refine ⟨iff_of_true rfl (Or.inr ⟨m, rfl, hset2⟩), rfl,
        fun m2 hm2 => absurd hm2 (by simp)⟩

/-- C9 witness: looking up "doesnotexist" in a registry holding only
"rotate" yields null and leaves the registry unchanged. -/
theorem claim_C9_witness :
    (findPixelMapper
        (registerPixelMapperInternal (fun _ => none)
          { name := "Rotate", setParameters := fun _ _ _ => true })
        "doesnotexist" 1 1 none).1 = none ∧
    (findPixelMapper
        (registerPixelMapperInternal (fun _ => none)
          { name := "Rotate", setParameters := fun _ _ _ => true })
        "doesnotexist" 1 1 none).2 =
      registerPixelMapperInternal (fun _ => none)
        { name := "Rotate", setParameters := fun _ _ _ => true } :=
  ⟨(claim_C9_find_mapper_failure
      (registerPixelMapperInternal (fun _ => none)
        { name := "Rotate", setParameters := fun _ _ _ => true })
      "doesnotexist" 1 1 none).1.mpr (Or.inl rfl),
   (claim_C9_find_mapper_failure
      (registerPixelMapperInternal (fun _ => none)
        { name := "Rotate", setParameters := fun _ _ _ => true })
      "doesnotexist" 1 1 none).2.1⟩

/-- C1 counterexample: the Vertical strategy accepts any configuration and
any geometry (configure and GetSizeMapping both succeed), yet with
chain=2, parallel=2 on a 64x5 matrix (a height not divisible by the panel
grid) the in-range visible coordinate (0,4) is mapped to matrix column 64,
outside [0,64): the invariant fails as claimed. -/
theorem claim_C1_counterexample :
    (vSetParameters 2 2 none).2 = true ∧
    vGetSizeMapping (vSetParameters 2 2 none).1 64 5 = ((64, 5), true) ∧
    InRange 64 5 0 4 ∧
    vMapVisibleToMatrix (vSetParameters 2 2 none).1 64 5 0 4 = (64, 0) ∧
    ¬ InRange 64 5
      (vMapVisibleToMatrix (vSetParameters 2 2 none).1 64 5 0 4).1
      (vMapVisibleToMatrix (vSetParameters 2 2 none).1 64 5 0 4).2 := by
  decide

/-- C1 (amended): for every strategy whose configure and size mapping
succeed, and whose geometry satisfies the physical-panel-grid invariant of
the data model (positive chain/parallel, chain dividing matrix_width and
parallel dividing matrix_height where the strategy uses them) — and, for
Rotate, whose stored angle is one of 0/90/180/270 (guaranteed for
parameter values above -360, cf. C3) — every in-range visible coordinate
maps inside [0,matrix_width) x [0,matrix_height) and the mapping is
injective on the visible rectangle. -/
theorem claim_C1_amended_mapping_invariant :
    (∀ (param : Option String) (angle mw mh : Int),
      rotateSetParameters param = some angle →
      (angle = 0 ∨ angle = 90 ∨ angle = 180 ∨ angle = 270) →
      GoodMapping (rotateGetSizeMapping angle mw mh).1.1
        (rotateGetSizeMapping angle mw mh).1.2 mw mh
        (fun x y => rotateMapVisibleToMatrix angle mw mh x y)) ∧
    (∀ (param : Option String) (horizontal : Bool) (mw mh : Int),
      mirrorSetParameters param = some horizontal →
      GoodMapping (mirrorGetSizeMapping mw mh).1.1
        (mirrorGetSizeMapping mw mh).1.2 mw mh
        (fun x y => some (mirrorMapVisibleToMatrix horizontal mw mh x y))) ∧
    (∀ chain parallel par2 mw mh : Int,
      uSetParameters chain parallel = some par2 →
      0 < parallel →
      (uGetSizeMapping par2 mw mh).2 = true →
      GoodMapping (uGetSizeMapping par2 mw mh).1.1
        (uGetSizeMapping par2 mw mh).1.2 mw mh
        (fun x y => some (uMapVisibleToMatrix par2 mw mh x y))) ∧
    (∀ (chain parallel : Int) (param : Option String) (mw mh : Int),
      (vSetParameters chain parallel param).2 = true →
      0 < chain → 0 < parallel → chain ∣ mw → parallel ∣ mh →
      GoodMapping
        (vGetSizeMapping (vSetParameters chain parallel param).1 mw mh).1.1
        (vGetSizeMapping (vSetParameters chain parallel param).1 mw mh).1.2
        mw mh
        (fun x y => some (vMapVisibleToMatrix
          (vSetParameters chain parallel param).1 mw mh x y))) ∧
    (∀ (chain parallel : Int) (param : Option String) (st : WindmillState)
        (mw mh : Int),
      windmillSetParameters chain parallel param = some st →
      0 < chain →
      GoodMapping (windmillGetSizeMapping st mw mh).1.1
        (windmillGetSizeMapping st mw mh).1.2 mw mh
        (fun x y => some (windmillMapVisibleToMatrix st mw mh x y))) := by
  refine ⟨fun param angle mw mh _hconf hangle => rotate_good angle mw mh hangle,
    fun param horizontal mw mh _hconf => mirror_good horizontal mw mh,
    fun chain parallel par2 mw mh hconf hpar hsz => ?_,
    fun chain parallel param mw mh _hconf hch hpar hdw hdh =>
      vertical_good (vSetParameters chain parallel param).1 mw mh hch hpar
        hdw hdh,
    fun chain parallel param st mw mh hconf hch => ?_⟩
  · unfold uSetParameters at hconf
    split_ifs at hconf
    injection hconf with e
    subst e
    have hdvd : parallel ∣ mh := by
      simp only [uGetSizeMapping] at hsz
      exact cmod_eq_zero_iff_dvd.mp (of_decide_eq_true hsz)
    exact u_good parallel mw mh hpar hdvd
  · cases param with
    | none =>
      simp only [windmillSetParameters] at hconf
      split_ifs at hconf with hp
      push_neg at hp
      subst hp
      injection hconf with e
      subst e
      exact windmill_good _ mw mh hch rfl
    | some s =>
      simp only [windmillSetParameters] at hconf
      split_ifs at hconf with hp
      push_neg at hp
      subst hp
      rcases hfl : windmillParseFlags s.toList false false with _ | zs <;>
        rw [hfl] at hconf
      · cases hconf
      · injection hconf with e
        subst e
        exact windmill_good _ mw mh hch rfl

/-- C1 amended witness: concrete instances of all five strategies at
representative geometries. -/
theorem claim_C1_amended_witness :
    GoodMapping 32 64 64 32
      (fun x y => rotateMapVisibleToMatrix 90 64 32 x y) ∧
    GoodMapping 64 32 64 32
      (fun x y => some (mirrorMapVisibleToMatrix true 64 32 x y)) ∧
    GoodMapping 128 64 256 32
      (fun x y => some (uMapVisibleToMatrix 1 256 32 x y)) ∧
    GoodMapping 64 64 64 64
      (fun x y => some (vMapVisibleToMatrix ⟨false, 1, 1⟩ 64 64 x y)) ∧
    GoodMapping 128 64 128 64
      (fun x y => some (windmillMapVisibleToMatrix ⟨true, false, 2, 2⟩
        128 64 x y)) :=
  ⟨claim_C1_amended_mapping_invariant.1 (some "90") 90 64 32 rfl
      (Or.inr (Or.inl rfl)),
   claim_C1_amended_mapping_invariant.2.1 none true 64 32 rfl,
   claim_C1_amended_mapping_invariant.2.2.1 4 1 1 256 32 rfl one_pos rfl,
   claim_C1_amended_mapping_invariant.2.2.2.1 1 1 none 64 64 rfl one_pos
     one_pos ⟨64, rfl⟩ ⟨64, rfl⟩,
   claim_C1_amended_mapping_invariant.2.2.2.2 2 2 (some "Z")
     ⟨true, false, 2, 2⟩ 128 64 rfl two_pos⟩
